import Mathlib

/-!
Verification model of `Automated tools/automated_sqlmap.py`.

The script's only parsing primitive is `re.findall(r'\[\*\] (.*?)\n', output)`,
applied identically in `extract_databases`, `extract_tables` and
`extract_columns`.  We model the regex scan operationally (`findAll`): scan the
character list left to right; at each position, if the literal marker
`"[*] "` starts here and a newline occurs later, the match captures the
characters between the marker and the first following newline (the lazy
`(.*?)` with `.` not matching `\n` captures exactly up to that newline), and
the scan resumes after the newline; otherwise the scan advances one character.
The orchestration (`run_sqlmap` and the `__main__` block) is modelled as a
trace of events (external invocations and printed lines), parameterised by the
external tool's output function.
-/

/-- The literal marker `"[*] "` of the regex. -/
def markerP : List Char := ['[', '*', ']', ' ']

/-- Fuel-indexed scanner for `re.findall(r'\[\*\] (.*?)\n', ·)`. -/
def findAllAux : Nat → List Char → List (List Char)
  | 0, _ => []
  | _ + 1, [] => []
  | fuel + 1, c :: cs =>
    if markerP.isPrefixOf (c :: cs) ∧ '\n' ∈ (c :: cs).drop 4 then
      ((c :: cs).drop 4).takeWhile (· ≠ '\n') ::
        findAllAux fuel ((((c :: cs).drop 4).dropWhile (· ≠ '\n')).tail)
    else
      findAllAux fuel cs

/-- All captures of `re.findall(r'\[\*\] (.*?)\n', ·)`, in order. -/
def findAll (s : List Char) : List (List Char) := findAllAux s.length s

/-- After a successful match at `c :: cs`, the remaining text is at most as
long as `cs`: the marker (4 chars) and the newline are consumed. -/
lemma restLen (c : Char) (cs : List Char) :
    ((((c :: cs).drop 4).dropWhile (· ≠ '\n')).tail).length ≤ cs.length := by
  have hA : ((((c :: cs).drop 4).dropWhile (· ≠ '\n')).tail).length ≤
      (((c :: cs).drop 4).dropWhile (· ≠ '\n')).length :=
    (List.tail_sublist _).length_le
  have hB : (((c :: cs).drop 4).dropWhile (· ≠ '\n')).length ≤
      ((c :: cs).drop 4).length :=
    (List.dropWhile_sublist _).length_le
  have hC : ((c :: cs).drop 4).length ≤ cs.length := by
    simp only [List.length_drop, List.length_cons]
    omega
  omega

lemma findAllAux_of_le :
    ∀ n : Nat, ∀ s : List Char, s.length ≤ n → findAllAux n s = findAllAux s.length s := by
  intro n
  induction n using Nat.strong_induction_on with
  | _ n ih =>
    intro s hs
    match n, s with
    | 0, [] => rfl
    | n + 1, [] => rfl
    | 0, c :: cs =>
      simp at hs
    | n + 1, c :: cs =>
      have hcs : cs.length ≤ n := by
        simp only [List.length_cons] at hs
        omega
      by_cases h : markerP.isPrefixOf (c :: cs) ∧ '\n' ∈ (c :: cs).drop 4
      · simp only [List.length_cons, findAllAux, if_pos h]
        congr 1
        rw [ih n (by omega) _ (le_trans (restLen c cs) hcs),
            ih cs.length (by omega) _ (restLen c cs)]
      · simp only [List.length_cons, findAllAux, if_neg h]
        rw [ih n (by omega) _ hcs, ih cs.length (by omega) _ (le_refl _)]

@[simp] lemma findAll_nil : findAll ([] : List Char) = [] := rfl

lemma findAll_cons_match {c : Char} {cs : List Char}
    (h : markerP.isPrefixOf (c :: cs) ∧ '\n' ∈ (c :: cs).drop 4) :
    findAll (c :: cs) =
      ((c :: cs).drop 4).takeWhile (· ≠ '\n') ::
        findAll ((((c :: cs).drop 4).dropWhile (· ≠ '\n')).tail) := by
  show findAllAux (c :: cs).length (c :: cs) = _
  simp only [List.length_cons, findAllAux, if_pos h]
  congr 1
  exact findAllAux_of_le cs.length _ (restLen c cs)

lemma findAll_cons_no_match {c : Char} {cs : List Char}
    (h : ¬ (markerP.isPrefixOf (c :: cs) ∧ '\n' ∈ (c :: cs).drop 4)) :
    findAll (c :: cs) = findAll cs := by
  show findAllAux (c :: cs).length (c :: cs) = _
  simp only [List.length_cons, findAllAux, if_neg h]
  exact findAllAux_of_le cs.length _ (le_refl _)

/-! ### Line-based view of the text

`termLines s` lists the newline-terminated lines of `s` (the trailing segment
after the last newline, if nonempty, is not a terminated line).
`afterFirstMarker L` gives the part of line `L` after the first occurrence of
the marker `"[*] "`, if the marker occurs in `L` at all. -/

def termLinesAux : List Char → List Char → List (List Char)
  | _, [] => []
  | acc, c :: cs =>
    if c = '\n' then acc :: termLinesAux [] cs else termLinesAux (acc ++ [c]) cs

def termLines (s : List Char) : List (List Char) := termLinesAux [] s

def afterFirstMarker : List Char → Option (List Char)
  | [] => none
  | c :: cs =>
    if markerP.isPrefixOf (c :: cs) then some ((c :: cs).drop 4)
    else afterFirstMarker cs

/-- Declarative, line-based extraction: for each newline-terminated line that
contains the marker, the part after the line's first marker. -/
def extractSpecL (s : List Char) : List (List Char) :=
  (termLines s).filterMap afterFirstMarker

lemma marker_isPrefixOf_iff (s : List Char) :
    markerP.isPrefixOf s = true ↔ ∃ t, s = markerP ++ t := by
  rw [ List.isPrefixOf_iff_prefix]
  constructor
  · rintro ⟨t, rfl⟩
    exact ⟨t, rfl⟩
  · rintro ⟨t, rfl⟩
    exact ⟨t, rfl⟩

lemma termLinesAux_of_not_mem {s : List Char} (h : '\n' ∉ s) (acc : List Char) :
    termLinesAux acc s = [] := by
  induction s generalizing acc with
  | nil => rfl
  | cons c cs ih =>
    have hc : ¬ c = '\n' := fun hc => h (hc ▸ List.mem_cons_self c cs)
    simp only [termLinesAux, if_neg hc]
    exact ih (fun hm => h (List.mem_cons_of_mem c hm)) _

lemma termLinesAux_of_mem {s : List Char} (h : '\n' ∈ s) (acc : List Char) :
    termLinesAux acc s =
      (acc ++ s.takeWhile (· ≠ '\n')) ::
        termLinesAux [] ((s.dropWhile (· ≠ '\n')).tail) := by
  induction s generalizing acc with
  | nil => cases h
  | cons c cs ih =>
    by_cases hc : c = '\n'
    · subst hc
      simp [termLinesAux, List.takeWhile_cons, List.dropWhile_cons]
    · have hcs : '\n' ∈ cs := by
        cases List.mem_cons.mp h with
        | inl h1 => exact absurd h1.symm hc
        | inr h2 => exact h2
      simp only [termLinesAux, if_neg hc, List.takeWhile_cons, List.dropWhile_cons]
      rw [ih hcs]
      simp [hc]

lemma termLines_nil : termLines [] = [] := rfl

lemma termLines_of_not_mem {s : List Char} (h : '\n' ∉ s) : termLines s = [] :=
  termLinesAux_of_not_mem h []

lemma termLines_of_mem {s : List Char} (h : '\n' ∈ s) :
    termLines s =
      s.takeWhile (· ≠ '\n') :: termLines ((s.dropWhile (· ≠ '\n')).tail) := by
  have := termLinesAux_of_mem h []
  simpa [termLines] using this

lemma newline_not_mem_markerP : '\n' ∉ markerP := by decide

lemma findAll_of_not_mem {s : List Char} (h : '\n' ∉ s) : findAll s = [] := by
  induction s with
  | nil => rfl
  | cons c cs ih =>
    have hno : ¬ (markerP.isPrefixOf (c :: cs) ∧ '\n' ∈ (c :: cs).drop 4) := by
      rintro ⟨-, hmem⟩
      exact h (List.mem_of_mem_drop hmem)
    rw [findAll_cons_no_match hno]
    exact ih (fun hm => h (List.mem_cons_of_mem c hm))

lemma markerP_ne_newline : ∀ a ∈ markerP, (a ≠ '\n' : Bool) := by decide

lemma marker_drop {s : List Char} (h : markerP.isPrefixOf s = true) :
    s = markerP ++ s.drop 4 := by
  obtain ⟨t, rfl⟩ := (marker_isPrefixOf_iff s).mp h
  rfl

lemma afterFirstMarker_marker_append (x : List Char) :
    afterFirstMarker (markerP ++ x) = some x := by
  have hpre : markerP.isPrefixOf ('[' :: '*' :: ']' :: ' ' :: x) = true :=
    (marker_isPrefixOf_iff _).mpr ⟨x, rfl⟩
  show afterFirstMarker ('[' :: '*' :: ']' :: ' ' :: x) = some x
  simp [afterFirstMarker, hpre]

lemma afterFirstMarker_cons_of_not {c : Char} {l : List Char}
    (h : ¬ markerP.isPrefixOf (c :: l) = true) :
    afterFirstMarker (c :: l) = afterFirstMarker l := by
  simp [afterFirstMarker, h]

/-- One line of the scan: on text containing a newline, `findAll` yields the
(first-)marker capture of the first line, if any, followed by the captures in
the remaining text after that line's newline. -/
lemma findAll_line_step {s : List Char} (h : '\n' ∈ s) :
    findAll s =
      (afterFirstMarker (s.takeWhile (· ≠ '\n'))).toList ++
        findAll ((s.dropWhile (· ≠ '\n')).tail) := by
  induction s with
  | nil => cases h
  | cons c cs ih =>
    by_cases hpre : markerP.isPrefixOf (c :: cs) = true
    · have hdecomp : c :: cs = markerP ++ (c :: cs).drop 4 := marker_drop hpre
      have hnl : '\n' ∈ (c :: cs).drop 4 := by
        rcases List.mem_append.mp (hdecomp ▸ h) with h1 | h2
        · exact absurd h1 newline_not_mem_markerP
        · exact h2
      have htake : (c :: cs).takeWhile (· ≠ '\n') =
          markerP ++ ((c :: cs).drop 4).takeWhile (· ≠ '\n') := by
        conv_lhs => rw [hdecomp]
        exact List.takeWhile_append_of_pos markerP_ne_newline
      have hdropw : (c :: cs).dropWhile (· ≠ '\n') =
          ((c :: cs).drop 4).dropWhile (· ≠ '\n') := by
        conv_lhs => rw [hdecomp]
        exact List.dropWhile_append_of_pos markerP_ne_newline
      rw [findAll_cons_match ⟨hpre, hnl⟩, htake, hdropw,
        afterFirstMarker_marker_append]
      rfl
    · have hnomatch :
          ¬ (markerP.isPrefixOf (c :: cs) ∧ '\n' ∈ (c :: cs).drop 4) :=
        fun hx => hpre hx.1
      rw [findAll_cons_no_match hnomatch]
      by_cases hc : c = '\n'
      · subst hc
        simp [List.takeWhile_cons, List.dropWhile_cons, afterFirstMarker]
      · have hcs : '\n' ∈ cs := by
          cases List.mem_cons.mp h with
          | inl h1 => exact absurd h1.symm hc
          | inr h2 => exact h2
        have htake : (c :: cs).takeWhile (· ≠ '\n') =
            c :: cs.takeWhile (· ≠ '\n') := by
          simp [List.takeWhile_cons, hc]
        have hdropw : (c :: cs).dropWhile (· ≠ '\n') =
            cs.dropWhile (· ≠ '\n') := by
          simp [List.dropWhile_cons, hc]
        have hnp : ¬ markerP.isPrefixOf (c :: cs.takeWhile (· ≠ '\n')) = true := by
          intro hx
          apply hpre
          obtain ⟨u, hu⟩ := (marker_isPrefixOf_iff _).mp hx
          apply (marker_isPrefixOf_iff _).mpr
          refine ⟨u ++ cs.dropWhile (· ≠ '\n'), ?_⟩
          have hsplit : c :: cs =
              (c :: cs.takeWhile (· ≠ '\n')) ++ cs.dropWhile (· ≠ '\n') := by
            simp
          rw [hsplit, hu, List.append_assoc]
        rw [ih hcs, htake, hdropw, afterFirstMarker_cons_of_not hnp]

lemma findAll_eq_extractSpecL_aux :
    ∀ (n : Nat) (s : List Char), s.length ≤ n → findAll s = extractSpecL s := by
  intro n
  induction n with
  | zero =>
    intro s hs
    have : s = [] := List.length_eq_zero.mp (Nat.le_zero.mp hs)
    subst this
    rfl
  | succ n ih =>
    intro s hs
    by_cases h : '\n' ∈ s
    · have hlen1 : 1 ≤ s.length := by
        cases s with
        | nil => cases h
        | cons a l => simp
      have hrec : findAll ((s.dropWhile (· ≠ '\n')).tail) =
          extractSpecL ((s.dropWhile (· ≠ '\n')).tail) := by
        apply ih
        have h1 : ((s.dropWhile (· ≠ '\n')).tail).length =
            (s.dropWhile (· ≠ '\n')).length - 1 := List.length_tail _
        have h2 : (s.dropWhile (· ≠ '\n')).length ≤ s.length :=
          (List.dropWhile_sublist _).length_le
        omega
      rw [findAll_line_step h, hrec]
      show _ = (termLines s).filterMap afterFirstMarker
      rw [termLines_of_mem h, List.filterMap_cons]
      cases hafm : afterFirstMarker (s.takeWhile (· ≠ '\n')) with
      | none => simp [extractSpecL]
      | some v => simp [extractSpecL]
    · rw [findAll_of_not_mem h]
      show _ = (termLines s).filterMap afterFirstMarker
      rw [termLines_of_not_mem h]
      rfl

/-- The operational regex scan agrees with the declarative line-based
extraction. -/
lemma findAll_eq_extractSpecL (s : List Char) : findAll s = extractSpecL s :=
  findAll_eq_extractSpecL_aux s.length s (le_refl _)

lemma termLinesAux_append_of_not_mem {t : List Char} (ht : '\n' ∉ t) :
    ∀ (s acc : List Char), termLinesAux acc (s ++ t) = termLinesAux acc s := by
  intro s
  induction s with
  | nil =>
    intro acc
    exact termLinesAux_of_not_mem ht acc
  | cons c cs ih =>
    intro acc
    by_cases hc : c = '\n'
    · subst hc
      simp only [List.cons_append, termLinesAux, if_pos rfl]
      simp only [List.append_eq]
      rw [ih []]
      simp only [if_true]
    · simp only [List.cons_append, termLinesAux, if_neg hc]
      exact ih _

lemma termLines_append_of_not_mem {t : List Char} (ht : '\n' ∉ t) (s : List Char) :
    termLines (s ++ t) = termLines s :=
  termLinesAux_append_of_not_mem ht s []

/-- Appending newline-free text never changes the captures. -/
lemma findAll_append_of_not_mem {t : List Char} (ht : '\n' ∉ t) (s : List Char) :
    findAll (s ++ t) = findAll s := by
  rw [findAll_eq_extractSpecL, findAll_eq_extractSpecL]
  show (termLines (s ++ t)).filterMap afterFirstMarker = _
  rw [termLines_append_of_not_mem ht]
  rfl

/-! ### The program

Models of `extract_databases` / `extract_tables` / `extract_columns`,
`run_sqlmap`, and the `__main__` block.  The external tool
(`subprocess.getoutput`) is an opaque function `tool : String → String` from
the command line to its combined output text; a run is modelled as the trace
of external invocations and printed lines, in program order. -/

def extract_databases (output : String) : List String :=
  let m := (findAll output.data).map String.mk
  if m = [] then [] else m

def extract_tables (output : String) : List String :=
  let m := (findAll output.data).map String.mk
  if m = [] then [] else m

def extract_columns (output : String) : List String :=
  let m := (findAll output.data).map String.mk
  if m = [] then [] else m

lemma extract_databases_eq (output : String) :
    extract_databases output = (findAll output.data).map String.mk := by
  show (if _ = [] then _ else _) = _
  split
  · next h => exact h.symm
  · rfl

lemma extract_tables_eq (output : String) :
    extract_tables output = (findAll output.data).map String.mk :=
  extract_databases_eq output

lemma extract_columns_eq (output : String) :
    extract_columns output = (findAll output.data).map String.mk :=
  extract_databases_eq output

/-- One observable step of a run: an external tool invocation (with its full
command line) or a line printed to the console. -/
inductive Event where
  | invoke : String → Event
  | print : String → Event
deriving DecidableEq

/-- The column-discovery pass for one table (the body of the inner loop). -/
def scanTable (tool : String → String) (url db table : String) : List Event :=
  let columns_command :=
    "sqlmap -u " ++ url ++ " -D " ++ db ++ " -T " ++ table ++ " --batch --columns"
  let columns_output := tool columns_command
  let columns := extract_columns columns_output
  [Event.print ("Extracting columns from " ++ table ++ "..."),
   Event.invoke columns_command,
   Event.print columns_output] ++
  (if columns = [] then
    [Event.print ("No columns found in table " ++ table ++ ".")]
   else
    [Event.print ("Columns in " ++ table ++ ": " ++ String.intercalate ", " columns)])

/-- The table-discovery pass for one database (the body of the outer loop). -/
def scanDb (tool : String → String) (url db : String) : List Event :=
  let tables_command := "sqlmap -u " ++ url ++ " -D " ++ db ++ " --batch --tables"
  let tables_output := tool tables_command
  let tables := extract_tables tables_output
  [Event.print ("Found database: " ++ db),
   Event.invoke tables_command,
   Event.print tables_output] ++
  (if tables = [] then
    [Event.print ("No tables found in database " ++ db ++ ".")]
   else
    tables.flatMap (scanTable tool url db))

/-- Trace of one orchestrated run of `run_sqlmap(url)`. -/
def run_sqlmap (tool : String → String) (url : String) : List Event :=
  let dbs_command := "sqlmap -u " ++ url ++ " --batch --dbs --disable-color"
  let dbs_output := tool dbs_command
  let databases := extract_databases dbs_output
  [Event.print ("Running SQLMap on " ++ url ++ " to fetch databases..."),
   Event.invoke dbs_command,
   Event.print dbs_output] ++
  (if databases = [] then
    [Event.print "No databases found."]
   else
    databases.flatMap (scanDb tool url))

/-- Python whitespace as used by `str.strip()`: the characters `c` with
`c.isspace()` true, i.e. U+0009..U+000D, U+001C..U+001F, space, U+0085 (NEL),
U+00A0 (NBSP), U+1680 (Ogham space mark), U+2000..U+200A, U+2028, U+2029,
U+202F, U+205F and U+3000 (the Unicode whitespace set of CPython). -/
def isPySpace (c : Char) : Bool :=
  decide ((9 ≤ c.toNat ∧ c.toNat ≤ 13) ∨
    (28 ≤ c.toNat ∧ c.toNat ≤ 31) ∨
    c.toNat = 32 ∨ c.toNat = 133 ∨ c.toNat = 160 ∨ c.toNat = 5760 ∨
    (8192 ≤ c.toNat ∧ c.toNat ≤ 8202) ∨
    c.toNat = 8232 ∨ c.toNat = 8233 ∨ c.toNat = 8239 ∨ c.toNat = 8287 ∨
    c.toNat = 12288)

/-- Model of `str.strip()`: remove leading and trailing whitespace. -/
def pyStrip (s : String) : String :=
  String.mk (((s.data.dropWhile isPySpace).reverse.dropWhile isPySpace).reverse)

/-- The `__main__` block: read a line, strip it, dispatch. -/
def mainEntry (tool : String → String) (inputLine : String) : List Event :=
  let target_url := pyStrip inputLine
  if target_url ≠ "" then run_sqlmap tool target_url
  else [Event.print "Invalid URL"]

/-- The external invocations of a trace, in order. -/
def invocations (es : List Event) : List String :=
  es.filterMap fun e =>
    match e with
    | Event.invoke cmd => some cmd
    | Event.print _ => none

@[simp] lemma invocations_nil : invocations [] = [] := rfl

@[simp] lemma invocations_cons_invoke (cmd : String) (es : List Event) :
    invocations (Event.invoke cmd :: es) = cmd :: invocations es := rfl

@[simp] lemma invocations_cons_print (s : String) (es : List Event) :
    invocations (Event.print s :: es) = invocations es := rfl

@[simp] lemma invocations_append (l1 l2 : List Event) :
    invocations (l1 ++ l2) = invocations l1 ++ invocations l2 :=
  List.filterMap_append l1 l2 _

@[simp] lemma invocations_ite_single (b : Prop) [Decidable b] (x y : String) :
    invocations (if b then [Event.print x] else [Event.print y]) = [] := by
  split <;> rfl

/-! ### Claims -/

/-- The reading of the extractor contract under which only a marker at the
very start of a newline-terminated line contributes, capturing up to that
line's terminating newline (stated for comparison with the code's actual
behaviour). -/
def lineStartExtract (s : List Char) : List (List Char) :=
  (termLines s).filterMap fun L =>
    if markerP.isPrefixOf L then some (L.drop 4) else none

/-- C1 counterexample: on the input `"x[*] foo\n"` the marker occurs only in
the middle of the line; the claim says such an occurrence contributes nothing
(so the extractor would return `[]`), but the code extracts `"foo"`. -/
theorem c1_counterexample :
    extract_databases "x[*] foo\n" = ["foo"] ∧
    lineStartExtract "x[*] foo\n".data = [] := by
  constructor
  · decide
  · decide

/-- C1 (amended): for every input text, the extractor returns exactly the
substrings that follow the first occurrence of `"[*] "` in each
newline-terminated line — wherever in the line that occurrence lies, not only
at the start of the line — up to the line's terminating newline. -/
theorem c1_extractor_characterisation (output : String) :
    extract_databases output =
      ((termLines output.data).filterMap afterFirstMarker).map String.mk := by
  rw [extract_databases_eq, findAll_eq_extractSpecL]
  rfl

/-- C5: the extractor preserves order of appearance and does not deduplicate:
on the three newline-terminated lines `[*] alpha`, `[*] beta`, `[*] alpha` it
returns exactly `["alpha", "beta", "alpha"]`. -/
theorem c5_order_preserved_no_dedup :
    extract_databases "[*] alpha\n[*] beta\n[*] alpha\n" =
      ["alpha", "beta", "alpha"] := by
  decide

/-- C7: the three extraction functions are extensionally equal — on every
input text all three return the same sequence. -/
theorem c7_extractors_extensionally_equal (output : String) :
    extract_tables output = extract_databases output ∧
    extract_columns output = extract_databases output :=
  ⟨rfl, rfl⟩

/-- C9: a final segment that is not terminated by a newline contributes no
identifier, even if it matches the marker pattern: appending any
newline-free text (such as `"[*] last"`) to an input leaves the extracted
sequence unchanged; only newline-terminated matches are extracted. -/
theorem c9_unterminated_final_line_ignored (s t : String) (h : '\n' ∉ t.data) :
    extract_databases (s ++ t) = extract_databases s := by
  rw [extract_databases_eq, extract_databases_eq]
  have hd : (s ++ t).data = s.data ++ t.data := String.data_append s t
  rw [hd, findAll_append_of_not_mem h]

/-- Witness for C9 at a concrete input: `"[*] a\n[*] last"` yields the same
result as `"[*] a\n"` — the unterminated final `"[*] last"` is omitted. -/
theorem c9_witness :
    '\n' ∉ "[*] last".data ∧
      extract_databases ("[*] a\n" ++ "[*] last") = extract_databases "[*] a\n" :=
  ⟨by decide, c9_unterminated_final_line_ignored "[*] a\n" "[*] last" (by decide)⟩

/-- Whenever `db` is among the extracted database names, the orchestrator
invokes the table-listing command for `db`, built by direct interpolation. -/
lemma mem_invoke_tables_of_mem_databases (tool : String → String) (url db : String)
    (h : db ∈ extract_databases
      (tool ("sqlmap -u " ++ url ++ " --batch --dbs --disable-color"))) :
    Event.invoke ("sqlmap -u " ++ url ++ " -D " ++ db ++ " --batch --tables") ∈
      run_sqlmap tool url := by
  have hne : extract_databases
      (tool ("sqlmap -u " ++ url ++ " --batch --dbs --disable-color")) ≠ [] := by
    intro h0
    rw [h0] at h
    cases h
  simp only [run_sqlmap, if_neg hne]
  refine List.mem_append.mpr (Or.inr ?_)
  refine List.mem_flatMap.mpr ⟨db, h, ?_⟩
  simp [scanDb]

/-- C2: if the database listing yields exactly `["db1"]` and the table
listing for `db1` yields `["t1", "t2"]`, the run performs exactly four
external invocations, in order: databases, tables for `db1`, columns for
`t1`, columns for `t2`. -/
theorem c2_four_invocations_in_order (tool : String → String) (url : String)
    (h1 : extract_databases
      (tool ("sqlmap -u " ++ url ++ " --batch --dbs --disable-color")) = ["db1"])
    (h2 : extract_tables
      (tool ("sqlmap -u " ++ url ++ " -D " ++ "db1" ++ " --batch --tables")) =
      ["t1", "t2"]) :
    invocations (run_sqlmap tool url) =
      ["sqlmap -u " ++ url ++ " --batch --dbs --disable-color",
       "sqlmap -u " ++ url ++ " -D " ++ "db1" ++ " --batch --tables",
       "sqlmap -u " ++ url ++ " -D " ++ "db1" ++ " -T " ++ "t1" ++ " --batch --columns",
       "sqlmap -u " ++ url ++ " -D " ++ "db1" ++ " -T " ++ "t2" ++ " --batch --columns"] := by
  simp [run_sqlmap, scanDb, scanTable, h1, h2]

/-- A canned external tool for exercising C2 concretely: the database listing
reports one database `db1`, the table listing for `db1` reports `t1`, `t2`,
and every other invocation produces empty output. -/
def c2tool : String → String := fun c =>
  if c = "sqlmap -u " ++ "http://x" ++ " --batch --dbs --disable-color" then
    "[*] db1\n"
  else if c = "sqlmap -u " ++ "http://x" ++ " -D " ++ "db1" ++ " --batch --tables" then
    "[*] t1\n[*] t2\n"
  else ""

/-- Witness for C2 at the canned tool and a concrete URL. -/
theorem c2_witness :
    extract_databases
      (c2tool ("sqlmap -u " ++ "http://x" ++ " --batch --dbs --disable-color")) =
      ["db1"] ∧
    extract_tables
      (c2tool ("sqlmap -u " ++ "http://x" ++ " -D " ++ "db1" ++ " --batch --tables")) =
      ["t1", "t2"] ∧
    invocations (run_sqlmap c2tool "http://x") =
      ["sqlmap -u " ++ "http://x" ++ " --batch --dbs --disable-color",
       "sqlmap -u " ++ "http://x" ++ " -D " ++ "db1" ++ " --batch --tables",
       "sqlmap -u " ++ "http://x" ++ " -D " ++ "db1" ++ " -T " ++ "t1" ++ " --batch --columns",
       "sqlmap -u " ++ "http://x" ++ " -D " ++ "db1" ++ " -T " ++ "t2" ++ " --batch --columns"] :=
  ⟨by decide, by decide,
    c2_four_invocations_in_order c2tool "http://x" (by decide) (by decide)⟩

/-- C4: if the database-listing output contains no matching lines, the run
performs exactly one external invocation (the database listing) and reports
that no databases were found. -/
theorem c4_no_databases_single_invocation (tool : String → String) (url : String)
    (h : extract_databases
      (tool ("sqlmap -u " ++ url ++ " --batch --dbs --disable-color")) = []) :
    invocations (run_sqlmap tool url) =
      ["sqlmap -u " ++ url ++ " --batch --dbs --disable-color"] ∧
    Event.print "No databases found." ∈ run_sqlmap tool url := by
  constructor
  · simp [run_sqlmap, h]
  · simp [run_sqlmap, h]

/-- Witness for C4: a tool whose every output is empty. -/
theorem c4_witness :
    extract_databases
      ((fun _ => "") ("sqlmap -u " ++ "http://x" ++ " --batch --dbs --disable-color")) = [] ∧
    invocations (run_sqlmap (fun _ => "") "http://x") =
      ["sqlmap -u " ++ "http://x" ++ " --batch --dbs --disable-color"] ∧
    Event.print "No databases found." ∈ run_sqlmap (fun _ => "") "http://x" := by
  refine ⟨by decide, ?_⟩
  have h := c4_no_databases_single_invocation (fun _ => "") "http://x" (by decide)
  exact ⟨h.1, h.2⟩

/-- C6: when the column-listing invocation for table `t1` returns the output
`"[*] id\n[*] name\n"`, the run reports exactly the line
`"Columns in t1: id, name"` (the extracted columns joined by `", "`). -/
theorem c6_columns_report (tool : String → String) (url db : String)
    (h : tool ("sqlmap -u " ++ url ++ " -D " ++ db ++ " -T " ++ "t1" ++
      " --batch --columns") = "[*] id\n[*] name\n") :
    Event.print "Columns in t1: id, name" ∈ scanTable tool url db "t1" := by
  have hcols : extract_columns "[*] id\n[*] name\n" = ["id", "name"] := by decide
  have hjoin : "Columns in " ++ "t1" ++ ": " ++
      String.intercalate ", " ["id", "name"] = "Columns in t1: id, name" := by
    decide
  simp only [scanTable, h, hcols, hjoin]
  simp

/-- Witness for C6: a tool that always answers with the two column lines. -/
theorem c6_witness :
    (fun _ => "[*] id\n[*] name\n" : String → String)
      ("sqlmap -u " ++ "http://x" ++ " -D " ++ "db1" ++ " -T " ++ "t1" ++
        " --batch --columns") = "[*] id\n[*] name\n" ∧
    Event.print "Columns in t1: id, name" ∈
      scanTable (fun _ => "[*] id\n[*] name\n") "http://x" "db1" "t1" :=
  ⟨rfl, c6_columns_report (fun _ => "[*] id\n[*] name\n") "http://x" "db1" rfl⟩

/-- C8: for every discovered database name `db`, the orchestrator invokes the
table-listing command consisting exactly of the tool name, the target flag
with the URL, the specify-database flag with `db`, the non-interactive flag
and the list-tables flag — with `url` and `db` interpolated directly into the
command string, and without the disable-color flag that the database-listing
command carries. -/
theorem c8_tables_command_construction (tool : String → String) (url db : String)
    (h : db ∈ extract_databases
      (tool ("sqlmap -u " ++ url ++ " --batch --dbs --disable-color"))) :
    Event.invoke ("sqlmap -u " ++ url ++ " -D " ++ db ++ " --batch --tables") ∈
      run_sqlmap tool url :=
  mem_invoke_tables_of_mem_databases tool url db h

/-- Witness for C8: the database listing reports `db1`. -/
theorem c8_witness :
    "db1" ∈ extract_databases
      ((fun _ => "[*] db1\n")
        ("sqlmap -u " ++ "http://x" ++ " --batch --dbs --disable-color")) ∧
    Event.invoke ("sqlmap -u " ++ "http://x" ++ " -D " ++ "db1" ++ " --batch --tables") ∈
      run_sqlmap (fun _ => "[*] db1\n") "http://x" :=
  ⟨by decide,
    c8_tables_command_construction (fun _ => "[*] db1\n") "http://x" "db1" (by decide)⟩

/-- C10: the extractor can return the empty string — any input containing a
newline-terminated line consisting exactly of `"[*] "` contributes the empty
identifier — and the orchestrator then interpolates that empty string,
unvalidated, into the next (table-listing) command line. -/
theorem c10_empty_identifier (s : String) (tool : String → String) (url : String) :
    (markerP ∈ termLines s.data → "" ∈ extract_databases s) ∧
    ("" ∈ extract_databases
        (tool ("sqlmap -u " ++ url ++ " --batch --dbs --disable-color")) →
      Event.invoke ("sqlmap -u " ++ url ++ " -D " ++ "" ++ " --batch --tables") ∈
        run_sqlmap tool url) := by
  constructor
  · intro h
    rw [extract_databases_eq, findAll_eq_extractSpecL]
    show "" ∈ ((termLines s.data).filterMap afterFirstMarker).map String.mk
    apply List.mem_map.mpr
    refine ⟨[], ?_, rfl⟩
    apply List.mem_filterMap.mpr
    refine ⟨markerP, h, ?_⟩
    have hx := afterFirstMarker_marker_append []
    simpa using hx
  · intro h
    exact mem_invoke_tables_of_mem_databases tool url "" h

/-- Witness for C10: the input `"[*] \n"` itself. -/
theorem c10_witness :
    markerP ∈ termLines "[*] \n".data ∧
    "" ∈ extract_databases "[*] \n" ∧
    Event.invoke ("sqlmap -u " ++ "http://x" ++ " -D " ++ "" ++ " --batch --tables") ∈
      run_sqlmap (fun _ => "[*] \n") "http://x" :=
  ⟨by decide,
    (c10_empty_identifier "[*] \n" (fun _ => "[*] \n") "http://x").1 (by decide),
    (c10_empty_identifier "[*] \n" (fun _ => "[*] \n") "http://x").2 (by decide)⟩

/-- C3: a target URL that is empty or consists only of whitespace makes the
program print `"Invalid URL"` and perform zero external invocations; any
input that is non-empty after stripping is handed to the orchestrator in its
stripped form. -/
theorem c3_invalid_url_and_dispatch (tool : String → String) (s : String) :
    ((∀ c ∈ s.data, isPySpace c = true) →
      mainEntry tool s = [Event.print "Invalid URL"] ∧
        invocations (mainEntry tool s) = []) ∧
    (pyStrip s ≠ "" → mainEntry tool s = run_sqlmap tool (pyStrip s)) := by
  constructor
  · intro h
    have hstrip : pyStrip s = "" := by
      unfold pyStrip
      have h1 : s.data.dropWhile isPySpace = [] := List.dropWhile_eq_nil_iff.mpr h
      rw [h1]
      rfl
    have hm : mainEntry tool s = [Event.print "Invalid URL"] := by
      unfold mainEntry
      rw [hstrip]
      simp
    exact ⟨hm, by rw [hm]; rfl⟩
  · intro h
    unfold mainEntry
    rw [if_pos h]

/-- Witness for C3: a whitespace-only input (mixing ASCII and non-ASCII
Python whitespace: space, file separator U+001C, NEL U+0085, tab) and a
paddable valid input. -/
theorem c3_witness :
    (∀ c ∈ " \x1c\x85\t".data, isPySpace c = true) ∧
    mainEntry (fun _ => "") " \x1c\x85\t" = [Event.print "Invalid URL"] ∧
    invocations (mainEntry (fun _ => "") " \x1c\x85\t") = [] ∧
    pyStrip " http://x " ≠ "" ∧
    mainEntry (fun _ => "") " http://x " =
      run_sqlmap (fun _ => "") (pyStrip " http://x ") := by
  refine ⟨by decide, ?_, ?_, by decide, ?_⟩
  · exact ((c3_invalid_url_and_dispatch (fun _ => "") " \x1c\x85\t").1 (by decide)).1
  · exact ((c3_invalid_url_and_dispatch (fun _ => "") " \x1c\x85\t").1 (by decide)).2
  · exact (c3_invalid_url_and_dispatch (fun _ => "") " http://x ").2 (by decide)
